import Mathlib

/-!
Verification of the two scripts of this repository against their design
description.

`hylable_processing.py` polls a transcription service for "discussions" of a
course and downloads transcripts; `miro-backup-python.py` fetches a
whiteboard's metadata and items over REST and writes one JSON backup file.

The service is modelled by explicit traces: each polling pass of the hylable
loops consumes one `PollStep` (the listing the service returned for that pass
together with the wall-clock reading `time.time()` takes at the start of the
pass and at the timeout check after it); the Miro item pagination consumes a
list of per-request responses, each either a page or an HTTP-level error.
Machine integers of the source are modelled as `Int`/`Nat` (Python integers
are unbounded, so no wrap-around is involved). The file-system is a list of
(path, document) pairs: the third-party `json` layer is taken as faithful, so
a written file holds exactly the serialized document.
-/

/-- A discussion record as the hylable SDK returns it.  `recordedAt` is the
UTC instant in epoch seconds (the source normalizes strings and naive
datetimes to an aware UTC datetime before converting; sub-second precision is
dropped by the `strftime` format the source uses for the stored value). -/
structure Discussion where
  id : String
  status : String
  recordedAt : Int
  topic : String
  comment : String
  duration_sec : Int
  group_name : String
deriving Repr, DecidableEq

/-- One iteration of a polling loop as seen from outside: the listing
`hy_client.get_discussions(course_id)` returned on that pass, the wall clock
at the moment the pass begins, and the wall clock at the `time.time()` call
of the timeout check that follows the pass. -/
structure PollStep where
  resp : List Discussion
  startT : Int
  checkT : Int
deriving Repr, DecidableEq

/-- Inner `for` loop of `get_discussion_ids`: walk one listing, append each
identifier not seen before, and return early (flag `true`) as soon as the
collected list reaches `max_discussions`. -/
def get_discussion_ids_pass (maxD : Int) : List String → List Discussion → List String × Bool
  | ids, [] => (ids, false)
  | ids, d :: ds =>
    if d.id ∈ ids then
      get_discussion_ids_pass maxD ids ds
    else
      let ids2 := ids ++ [d.id]
      if maxD ≤ (ids2.length : Int) then (ids2, true)
      else get_discussion_ids_pass maxD ids2 ds

/-- The `while` loop of `get_discussion_ids`.  Returns the collected
identifiers together with the number of listing calls made.  The guard
`len(discussion_ids) < max_discussions` is checked before each pass; after a
pass that did not return early the loop breaks when
`time.time() - start_time > timeout` and otherwise sleeps and repeats.  An
exhausted trace simply ends the run with the identifiers collected so far. -/
def get_discussion_ids_loop (maxD timeout t0 : Int) : List String → List PollStep → List String × Nat
  | ids, [] => (ids, 0)
  | ids, step :: rest =>
    if (ids.length : Int) < maxD then
      let p := get_discussion_ids_pass maxD ids step.resp
      if p.2 then (p.1, 1)
      else if timeout < step.checkT - t0 then (p.1, 1)
      else
        let r := get_discussion_ids_loop maxD timeout t0 p.1 rest
        (r.1, r.2 + 1)
    else (ids, 0)

/-- `get_discussion_ids(hy_client, course_id, max_discussions, timeout)`,
run against a trace of listing responses; `t0` is the `time.time()` reading
taken as `start_time`. -/
def get_discussion_ids (maxD timeout t0 : Int) (trace : List PollStep) : List String × Nat :=
  get_discussion_ids_loop maxD timeout t0 [] trace

/-- Inner `for` loop of `get_recording_discussion_ids`: only discussions with
status `"recording"` are considered; the early-return check sits outside the
dedup test, so it runs after every recording discussion. -/
def get_recording_discussion_ids_pass (maxD : Int) : List String → List Discussion → List String × Bool
  | ids, [] => (ids, false)
  | ids, d :: ds =>
    if d.status = "recording" then
      let ids2 := if d.id ∈ ids then ids else ids ++ [d.id]
      if maxD ≤ (ids2.length : Int) then (ids2, true)
      else get_recording_discussion_ids_pass maxD ids2 ds
    else get_recording_discussion_ids_pass maxD ids ds

/-- The `while` loop of `get_recording_discussion_ids` (same shape as
`get_discussion_ids_loop`, without the sleep). -/
def get_recording_discussion_ids_loop (maxD timeout t0 : Int) : List String → List PollStep → List String × Nat
  | ids, [] => (ids, 0)
  | ids, step :: rest =>
    if (ids.length : Int) < maxD then
      let p := get_recording_discussion_ids_pass maxD ids step.resp
      if p.2 then (p.1, 1)
      else if timeout < step.checkT - t0 then (p.1, 1)
      else
        let r := get_recording_discussion_ids_loop maxD timeout t0 p.1 rest
        (r.1, r.2 + 1)
    else (ids, 0)

/-- `get_recording_discussion_ids(hy_client, course_id, max_discussions,
timeout)` run against a trace. -/
def get_recording_discussion_ids (maxD timeout t0 : Int) (trace : List PollStep) : List String × Nat :=
  get_recording_discussion_ids_loop maxD timeout t0 [] trace

/-- The dictionary `get_all_discussion_ids` builds per discussion.
`recordedAtJST` is the recorded-at instant converted to the fixed display
timezone (Asia/Tokyo, a constant +9h offset from UTC, no daylight saving);
the source stores it formatted to whole seconds and later re-parses that
string as the sort key, so the key is exactly this value. -/
structure DInfo where
  id : String
  status : String
  topic : String
  comment : String
  recordedAtJST : Int
  duration_sec : Int
  group_name : String
deriving Repr, DecidableEq

/-- UTC epoch seconds to JST wall-clock seconds (`astimezone(jst)`). -/
def toJST (t : Int) : Int := t + 9 * 3600

/-- The `discussion_info` dictionary built for one newly seen discussion. -/
def dinfoOf (d : Discussion) : DInfo :=
  { id := d.id
    status := d.status
    topic := d.topic
    comment := d.comment
    recordedAtJST := toJST d.recordedAt
    duration_sec := d.duration_sec
    group_name := d.group_name }

/-- Inner `for` loop of `get_all_discussion_ids`: for each discussion whose
identifier is not yet in `found_ids`, add the identifier to `found_ids` and
append its detail record to `discussions`.  The set `found_ids` is modelled
as the list of its elements in insertion order. -/
def get_all_discussion_ids_pass : List DInfo → List String → List Discussion → List DInfo × List String
  | discs, found, [] => (discs, found)
  | discs, found, d :: ds =>
    if d.id ∈ found then get_all_discussion_ids_pass discs found ds
    else get_all_discussion_ids_pass (discs ++ [dinfoOf d]) (found ++ [d.id]) ds

/-- The `while True` loop of `get_all_discussion_ids`: after each pass it
breaks when `time.time() - start_time > timeout`, and otherwise breaks when
`len(found_ids) == len(discussions)`.  Returns the collected records and the
number of listing calls made. -/
def get_all_discussion_ids_loop (timeout t0 : Int) : List DInfo → List String → List PollStep → List DInfo × Nat
  | discs, _, [] => (discs, 0)
  | discs, found, step :: rest =>
    let p := get_all_discussion_ids_pass discs found step.resp
    if timeout < step.checkT - t0 then (p.1, 1)
    else if p.2.length = p.1.length then (p.1, 1)
    else
      let r := get_all_discussion_ids_loop timeout t0 p.1 p.2 rest
      (r.1, r.2 + 1)

/-- Comparison the final `discussions.sort(key=..., reverse=True)` uses:
descending by the re-parsed recorded-at key. -/
def byRecordedDesc (a b : DInfo) : Bool := decide (b.recordedAtJST ≤ a.recordedAtJST)

/-- `get_all_discussion_ids(hy_client, course_id, timeout)` run against a
trace: collect detail records, then sort them descending by the recorded-at
key (Python's sort is stable; `reverse=True` reverses the comparison, which
stable merge sort by the flipped key models exactly). -/
def get_all_discussion_ids (timeout t0 : Int) (trace : List PollStep) : List DInfo × Nat :=
  let r := get_all_discussion_ids_loop timeout t0 [] [] trace
  (r.1.mergeSort byRecordedDesc, r.2)

/-- One item of the list `hy_client.get_asr(discussion)` returns: a
dictionary with string fields (`item['text']` raises `KeyError` when the
field is missing). -/
structure AsrItem where
  fields : List (String × String)
deriving Repr, DecidableEq

/-- The hylable client as `get_single_discussion_text` uses it: each lookup
step either produces a value or raises (modelled as `Except.error`). -/
structure HyEnv where
  getDiscussion : String → Except String Discussion
  getAsr : Discussion → Except String (List AsrItem)

/-- The list comprehension `[item['text'] for item in metadatas]`: left to
right, failing at the first item without a `text` field. -/
def extract_texts : List AsrItem → Except String (List String)
  | [] => Except.ok []
  | item :: rest =>
    match item.fields.lookup "text" with
    | none => Except.error "KeyError: text"
    | some t =>
      match extract_texts rest with
      | Except.ok ts => Except.ok (t :: ts)
      | Except.error e => Except.error e

/-- Body of the `try` block of `get_single_discussion_text`: fetch the
discussion, fetch its ASR metadata, extract the ordered texts, and pair them
with the identifier. -/
def get_single_discussion_attempt (env : HyEnv) (did : String) : Except String (String × List String) :=
  match env.getDiscussion did with
  | Except.error e => Except.error e
  | Except.ok d =>
    match env.getAsr d with
    | Except.error e => Except.error e
    | Except.ok ms =>
      match extract_texts ms with
      | Except.error e => Except.error e
      | Except.ok ts => Except.ok (did, ts)

/-- `get_single_discussion_text(hy_client, discussion_id)`: the `except`
clauses catch `IndexError` and every other `Exception` and return `None`,
so any failure of the attempt becomes the `none` sentinel. -/
def get_single_discussion_text (env : HyEnv) (did : String) : Option (String × List String) :=
  match get_single_discussion_attempt env did with
  | Except.ok r => some r
  | Except.error _ => none

/-- A JSON document, as the Miro script passes them around (`response.json()`
values, the backup dictionary). -/
inductive JValue where
  | null : JValue
  | bool : Bool → JValue
  | str : String → JValue
  | num : Int → JValue
  | arr : List JValue → JValue
  | obj : List (String × JValue) → JValue
deriving Repr

/-- Field lookup on a JSON object (`d['k']` / `d.get('k')`). -/
def jget : JValue → String → Option JValue
  | JValue.obj fields, k => fields.lookup k
  | _, _ => none

/-- One page of `GET /boards/{id}/items`: the `data` array and the optional
continuation `cursor` field. -/
structure MiroPage where
  data : List JValue
  cursor : Option String
deriving Repr

/-- Python truthiness of `cursor = data.get("cursor")`: falsy when the field
is absent and also when it is the empty string (`if not cursor: break`). -/
def cursorFalsy : Option String → Bool
  | none => true
  | some s => s = ""

/-- The pagination loop of `get_all_items`, run against the per-request
responses (`Except.error` is an HTTP-level failure raised by
`raise_for_status`, re-raised by the method).  Returns the outcome together
with the number of item requests made; an exhausted trace counts as a
failed request. -/
def get_all_items_run : List (Except String MiroPage) → Except String (List JValue) × Nat
  | [] => (Except.error "no response", 0)
  | Except.error e :: _ => (Except.error e, 1)
  | Except.ok p :: rest =>
    if cursorFalsy p.cursor then (Except.ok p.data, 1)
    else
      let r := get_all_items_run rest
      match r.1 with
      | Except.ok items => (Except.ok (p.data ++ items), r.2 + 1)
      | Except.error e => (Except.error e, r.2 + 1)

/-- Modelled from the claim's words, for comparison with `get_all_items_run`:
pagination that stops exactly when a response omits the continuation cursor
(and only then), everything else as in the source. -/
def get_all_items_claimed : List (Except String MiroPage) → Except String (List JValue) × Nat
  | [] => (Except.error "no response", 0)
  | Except.error e :: _ => (Except.error e, 1)
  | Except.ok p :: rest =>
    match p.cursor with
    | none => (Except.ok p.data, 1)
    | some _ =>
      let r := get_all_items_claimed rest
      match r.1 with
      | Except.ok items => (Except.ok (p.data ++ items), r.2 + 1)
      | Except.error e => (Except.error e, r.2 + 1)

/-- The responses the Miro service gives one backup run: the board-info
response and the item-page responses. -/
structure MiroEnv where
  boardResp : Except String (List (String × JValue))
  itemResps : List (Except String MiroPage)

/-- The `backup_data` dictionary `backup_board` assembles. -/
def backup_data (board : List (String × JValue)) (items : List JValue) (now : String) : JValue :=
  JValue.obj
    [("board", JValue.obj board),
     ("items", JValue.arr items),
     ("metadata", JValue.obj
       [("backup_date", JValue.str now),
        ("item_count", JValue.num (items.length : Int)),
        ("board_name", (board.lookup "name").getD (JValue.str "Unknown Board"))])]

/-- `backup_board(board_id, output_path)` against the modelled service and
file system: fetch the board info (one request), fetch all items, assemble
`backup_data` and write it to `output_path`.  Returns the propagated outcome,
the file system after the run, and the number of HTTP requests made.  The
`except` clause of the source logs and re-raises, so failures pass through
unchanged and reach the write only on success. -/
def backup_board (env : MiroEnv) (now path : String) (fs : List (String × JValue)) :
    Except String JValue × List (String × JValue) × Nat :=
  match env.boardResp with
  | Except.error e => (Except.error e, fs, 1)
  | Except.ok board =>
    let r := get_all_items_run env.itemResps
    match r.1 with
    | Except.error e => (Except.error e, fs, 1 + r.2)
    | Except.ok items =>
      let doc := backup_data board items now
      (Except.ok doc, (path, doc) :: fs, 1 + r.2)

/-- Python truthiness of an `os.getenv` result: falsy when the variable is
absent and also when it is set to the empty string. -/
def envFalsy : Option String → Bool
  | none => true
  | some s => s = ""

/-- `load_environment()`: read the two required variables and the optional
output path (defaulting to `miro_board_backup.json`), and raise `ValueError`
when a required one is falsy. -/
def load_environment (env : String → Option String) : Except String (String × String × String) :=
  let access_token := env "MIRO_ACCESS_TOKEN"
  let board_id := env "MIRO_BOARD_ID"
  let output_path := (env "OUTPUT_PATH").getD "miro_board_backup.json"
  if envFalsy access_token then Except.error "MIRO_ACCESS_TOKEN is not set"
  else if envFalsy board_id then Except.error "MIRO_BOARD_ID is not set"
  else Except.ok (access_token.getD "", board_id.getD "", output_path)

/-- `main()`: load the environment; on failure log and stop (no request is
made), otherwise run the backup.  Returns the file system after the run and
the number of HTTP requests made. -/
def mainRun (env : String → Option String) (menv : MiroEnv) (now : String)
    (fs : List (String × JValue)) : List (String × JValue) × Nat :=
  match load_environment env with
  | Except.error _ => (fs, 0)
  | Except.ok (_, _, path) =>
    let r := backup_board menv now path fs
    (r.2.1, r.2.2)

theorem get_all_discussion_ids_pass_lockstep (ds : List Discussion) :
    ∀ discs found, found.length = discs.length →
      ((get_all_discussion_ids_pass discs found ds).2).length
        = ((get_all_discussion_ids_pass discs found ds).1).length := by
  induction ds with
  | nil => intro discs found h; simpa [get_all_discussion_ids_pass] using h
  | cons d ds ih =>
    intro discs found h
    by_cases hm : d.id ∈ found
    · simpa [get_all_discussion_ids_pass, hm] using ih discs found h
    · simpa [get_all_discussion_ids_pass, hm] using
        ih (discs ++ [dinfoOf d]) (found ++ [d.id]) (by simp [h])

theorem get_all_discussion_ids_one_listing (timeout t0 : Int) (step : PollStep)
    (rest : List PollStep) :
    (get_all_discussion_ids timeout t0 (step :: rest)).2 = 1 := by
  unfold get_all_discussion_ids get_all_discussion_ids_loop
  by_cases ht : timeout < step.checkT - t0
  · simp [ht]
  · have h := get_all_discussion_ids_pass_lockstep step.resp [] [] rfl
    simp [ht, h]

/-- C1: the full-enumeration loop of `get_all_discussion_ids` never re-lists:
whatever the service answers, the run makes exactly one listing call, because
`len(found_ids) == len(discussions)` is true after every pass (the set and
the list grow in lockstep), so the loop breaks at the end of the first pass
even when that pass found new identifiers and the timeout has not elapsed. -/
theorem get_all_discussion_ids_single_pass (timeout t0 : Int) (step : PollStep)
    (rest : List PollStep) :
    (get_all_discussion_ids timeout t0 (step :: rest)).2 = 1 :=
  get_all_discussion_ids_one_listing timeout t0 step rest

/-- C10: when `max_discussions` is zero or negative, the `while` guard
`len(discussion_ids) < max_discussions` fails immediately, so both
identifier-polling loops return the empty list having made no listing call. -/
theorem polling_nonpositive_max_empty (maxD timeout t0 : Int) (trace : List PollStep)
    (h : maxD ≤ 0) :
    get_discussion_ids maxD timeout t0 trace = ([], 0)
      ∧ get_recording_discussion_ids maxD timeout t0 trace = ([], 0) := by
  have hguard : ¬ ((0 : Int) < maxD) := by omega
  refine ⟨?_, ?_⟩
  · cases trace with
    | nil => rfl
    | cons step rest => simp [get_discussion_ids, get_discussion_ids_loop, hguard]
  · cases trace with
    | nil => rfl
    | cons step rest =>
      simp [get_recording_discussion_ids, get_recording_discussion_ids_loop, hguard]

theorem polling_nonpositive_max_empty_witness :
    get_discussion_ids (-2) 30 0 [⟨[], 0, 1⟩] = ([], 0)
      ∧ get_recording_discussion_ids (-2) 30 0 [⟨[], 0, 1⟩] = ([], 0) :=
  polling_nonpositive_max_empty (-2) 30 0 [⟨[], 0, 1⟩] (by decide)

/-- C4: `get_single_discussion_text` returns the `none` sentinel whenever any
lookup step fails (discussion fetch, ASR fetch, or a missing `text` field)
and never lets the failure escape; on success it returns the identifier
paired with the ordered list of segment texts. -/
theorem get_single_discussion_text_spec (env : HyEnv) (did : String) :
    (∀ e, env.getDiscussion did = Except.error e →
        get_single_discussion_text env did = none)
  ∧ (∀ d e, env.getDiscussion did = Except.ok d → env.getAsr d = Except.error e →
        get_single_discussion_text env did = none)
  ∧ (∀ d ms e, env.getDiscussion did = Except.ok d → env.getAsr d = Except.ok ms →
        extract_texts ms = Except.error e → get_single_discussion_text env did = none)
  ∧ (∀ d ms ts, env.getDiscussion did = Except.ok d → env.getAsr d = Except.ok ms →
        extract_texts ms = Except.ok ts →
        get_single_discussion_text env did = some (did, ts)) := by
  refine ⟨?_, ?_, ?_, ?_⟩ <;> intros <;>
    simp_all [get_single_discussion_text, get_single_discussion_attempt]

theorem get_single_discussion_text_spec_witness :
    get_single_discussion_text
        ⟨fun _ => Except.error "HTTP 404", fun _ => Except.error "no asr"⟩ "dsc_1" = none :=
  (get_single_discussion_text_spec
    ⟨fun _ => Except.error "HTTP 404", fun _ => Except.error "no asr"⟩ "dsc_1").1 "HTTP 404" rfl

/-- C2 (counterexample): on a page whose response carries the continuation
cursor as the empty string, the loop stops after that page (`if not cursor`),
whereas the rule of the claim, stopping exactly when the response omits the
cursor, would request the next page and return both items. -/
theorem get_all_items_empty_cursor_cex :
    (get_all_items_run [Except.ok ⟨[JValue.str "a"], some ""⟩,
        Except.ok ⟨[JValue.str "b"], none⟩]).1 = Except.ok [JValue.str "a"]
  ∧ (get_all_items_run [Except.ok ⟨[JValue.str "a"], some ""⟩,
        Except.ok ⟨[JValue.str "b"], none⟩]).2 = 1
  ∧ get_all_items_claimed [Except.ok ⟨[JValue.str "a"], some ""⟩,
        Except.ok ⟨[JValue.str "b"], none⟩]
      = (Except.ok [JValue.str "a", JValue.str "b"], 2) :=
  ⟨rfl, rfl, rfl⟩

/-- C2 (amended): the pagination loop stops exactly at the first response
whose cursor is absent or empty (Python falsy); the returned list is the
concatenation of the pages' item arrays in request order, nothing dropped,
nothing added, and later responses are never requested. -/
theorem get_all_items_pagination (front : List MiroPage) (lastPage : MiroPage)
    (extra : List (Except String MiroPage))
    (hfront : ∀ p ∈ front, cursorFalsy p.cursor = false)
    (hlast : cursorFalsy lastPage.cursor = true) :
    get_all_items_run (front.map Except.ok ++ Except.ok lastPage :: extra)
      = (Except.ok ((front.map MiroPage.data).flatten ++ lastPage.data),
          front.length + 1) := by
  induction front with
  | nil => simp [get_all_items_run, hlast]
  | cons p front ih =>
    have hp : cursorFalsy p.cursor = false := hfront p (by simp)
    have ih2 := ih (fun q hq => hfront q (by simp [hq]))
    simp [get_all_items_run, hp, ih2]

theorem get_all_items_pagination_witness :
    get_all_items_run [Except.ok ⟨[JValue.str "a"], some "cur1"⟩,
        Except.ok ⟨[JValue.str "b"], none⟩]
      = (Except.ok [JValue.str "a", JValue.str "b"], 2) := by
  have h := get_all_items_pagination [⟨[JValue.str "a"], some "cur1"⟩]
    ⟨[JValue.str "b"], none⟩ [] (by intro p hp; simp at hp; subst hp; rfl) rfl
  simpa using h

/-- C7: an HTTP-level failure of the board-info request or of any item-page
request makes `backup_board` propagate the error, and the file system is
left unchanged: no backup file is written. -/
theorem backup_board_aborts_on_failure (env : MiroEnv) (now path : String)
    (fs : List (String × JValue))
    (h : env.boardResp.isOk = false ∨ ((get_all_items_run env.itemResps).1).isOk = false) :
    ((backup_board env now path fs).1).isOk = false
      ∧ (backup_board env now path fs).2.1 = fs := by
  cases hb : env.boardResp with
  | error e => simp [backup_board, hb, Except.isOk, Except.toBool]
  | ok board =>
    cases hi : (get_all_items_run env.itemResps).1 with
    | error e => simp [backup_board, hb, hi, Except.isOk, Except.toBool]
    | ok items =>
      rcases h with h | h
      · rw [hb] at h; simp [Except.isOk, Except.toBool] at h
      · rw [hi] at h; simp [Except.isOk, Except.toBool] at h

theorem backup_board_aborts_on_failure_witness :
    ((backup_board ⟨Except.error "HTTP 500", []⟩ "2025-01-01" "out.json" []).1).isOk = false
      ∧ (backup_board ⟨Except.error "HTTP 500", []⟩ "2025-01-01" "out.json" []).2.1 = [] :=
  backup_board_aborts_on_failure ⟨Except.error "HTTP 500", []⟩ "2025-01-01" "out.json" []
    (Or.inl rfl)

/-- C6: on a successful run, `backup_board` writes exactly the assembled
document, and reading that document back gives the board metadata, the full
item list in order, and a metadata item count equal to the length of the item
list (the third-party JSON text layer is taken as faithful, so the written
file holds exactly this document). -/
theorem backup_board_roundtrip (env : MiroEnv) (now path : String)
    (fs : List (String × JValue)) (board : List (String × JValue)) (items : List JValue)
    (hb : env.boardResp = Except.ok board)
    (hi : (get_all_items_run env.itemResps).1 = Except.ok items) :
    (backup_board env now path fs).1 = Except.ok (backup_data board items now)
  ∧ (backup_board env now path fs).2.1 = (path, backup_data board items now) :: fs
  ∧ jget (backup_data board items now) "board" = some (JValue.obj board)
  ∧ jget (backup_data board items now) "items" = some (JValue.arr items)
  ∧ Option.bind (jget (backup_data board items now) "metadata")
      (fun m => jget m "item_count") = some (JValue.num (items.length : Int)) := by
  refine ⟨?_, ?_, ?_, ?_, ?_⟩
  · simp [backup_board, hb, hi]
  · simp [backup_board, hb, hi]
  · rfl
  · rfl
  · rfl

theorem backup_board_roundtrip_witness :
    (backup_board ⟨Except.ok [("name", JValue.str "B")], [Except.ok ⟨[JValue.str "i1"], none⟩]⟩
        "2025-01-01" "out.json" []).1
      = Except.ok (backup_data [("name", JValue.str "B")] [JValue.str "i1"] "2025-01-01") :=
  (backup_board_roundtrip
    ⟨Except.ok [("name", JValue.str "B")], [Except.ok ⟨[JValue.str "i1"], none⟩]⟩
    "2025-01-01" "out.json" [] [("name", JValue.str "B")] [JValue.str "i1"] rfl rfl).1

/-- C9: when a required environment variable is missing, `load_environment`
raises and `main` stops before any HTTP request (zero requests, file system
untouched); when both required variables are set and non-empty and
`OUTPUT_PATH` is absent, the output path defaults to
`miro_board_backup.json`. -/
theorem load_environment_guard (env : String → Option String) (menv : MiroEnv)
    (now : String) (fs : List (String × JValue)) :
    ((env "MIRO_ACCESS_TOKEN" = none ∨ env "MIRO_BOARD_ID" = none) →
        (∃ m, load_environment env = Except.error m)
          ∧ mainRun env menv now fs = (fs, 0))
  ∧ (∀ tok bid, env "MIRO_ACCESS_TOKEN" = some tok → tok ≠ "" →
        env "MIRO_BOARD_ID" = some bid → bid ≠ "" → env "OUTPUT_PATH" = none →
        load_environment env = Except.ok (tok, bid, "miro_board_backup.json")) := by
  constructor
  · intro h
    have herr : ∃ m, load_environment env = Except.error m := by
      by_cases ha : envFalsy (env "MIRO_ACCESS_TOKEN") = true
      · exact ⟨"MIRO_ACCESS_TOKEN is not set", by simp [load_environment, ha]⟩
      · rcases h with h | h
        · exact absurd (by simp [envFalsy, h]) ha
        · have hb : envFalsy (env "MIRO_BOARD_ID") = true := by simp [envFalsy, h]
          exact ⟨"MIRO_BOARD_ID is not set", by simp [load_environment, ha, hb]⟩
    obtain ⟨m, hm⟩ := herr
    exact ⟨⟨m, hm⟩, by simp [mainRun, hm]⟩
  · intro tok bid h1 h2 h3 h4 h5
    simp [load_environment, envFalsy, h1, h2, h3, h4, h5]

theorem load_environment_guard_witness :
    (∃ m, load_environment (fun _ => none) = Except.error m)
      ∧ mainRun (fun _ => none) ⟨Except.error "e", []⟩ "2025-01-01" [] = ([], 0) :=
  (load_environment_guard (fun _ => none) ⟨Except.error "e", []⟩ "2025-01-01" []).1
    (Or.inl rfl)

theorem get_discussion_ids_pass_nodup (maxD : Int) :
    ∀ (ds : List Discussion) (ids out : List String) (flag : Bool),
      get_discussion_ids_pass maxD ids ds = (out, flag) → ids.Nodup → out.Nodup := by
  intro ds
  induction ds with
  | nil =>
    intro ids out flag heq h
    simp only [get_discussion_ids_pass] at heq
    injection heq with h1 h2
    subst h1
    exact h
  | cons d ds ih =>
    intro ids out flag heq h
    simp only [get_discussion_ids_pass] at heq
    split at heq
    · exact ih ids out flag heq h
    · rename_i hm
      have h2 : (ids ++ [d.id]).Nodup := by simp [List.nodup_append, h, hm]
      split at heq
      · injection heq with h1 hf
        subst h1
        exact h2
      · exact ih (ids ++ [d.id]) out flag heq h2

theorem get_discussion_ids_pass_le (maxD : Int) :
    ∀ (ds : List Discussion) (ids out : List String) (flag : Bool),
      get_discussion_ids_pass maxD ids ds = (out, flag) →
      (ids.length : Int) < maxD →
      (out.length : Int) ≤ maxD ∧ (flag = false → (out.length : Int) < maxD) := by
  intro ds
  induction ds with
  | nil =>
    intro ids out flag heq hlen
    simp only [get_discussion_ids_pass] at heq
    injection heq with h1 h2
    subst h1
    subst h2
    exact ⟨by omega, fun _ => hlen⟩
  | cons d ds ih =>
    intro ids out flag heq hlen
    simp only [get_discussion_ids_pass] at heq
    split at heq
    · exact ih ids out flag heq hlen
    · split at heq
      · injection heq with h1 hf
        subst h1
        subst hf
        refine ⟨?_, fun hc => nomatch hc⟩
        simp only [List.length_append, List.length_singleton]
        omega
      · rename_i hm hr
        have hlen2 : ((ids ++ [d.id]).length : Int) < maxD := by
          simp only [List.length_append, List.length_singleton] at hr ⊢
          omega
        exact ih (ids ++ [d.id]) out flag heq hlen2

theorem get_discussion_ids_loop_nodup (maxD timeout t0 : Int) :
    ∀ (trace : List PollStep) (ids out : List String) (n : Nat),
      get_discussion_ids_loop maxD timeout t0 ids trace = (out, n) →
      ids.Nodup → out.Nodup := by
  intro trace
  induction trace with
  | nil =>
    intro ids out n heq h
    simp only [get_discussion_ids_loop] at heq
    injection heq with h1 h2
    subst h1
    exact h
  | cons st rest ih =>
    intro ids out n heq h
    simp only [get_discussion_ids_loop] at heq
    split at heq
    · have hp : (get_discussion_ids_pass maxD ids st.resp).1.Nodup :=
        get_discussion_ids_pass_nodup maxD st.resp ids _ _ rfl h
      split at heq
      · injection heq with h1 h2
        subst h1
        exact hp
      · split at heq
        · injection heq with h1 h2
          subst h1
          exact hp
        · injection heq with h1 h2
          subst h1
          exact ih _ _ _ rfl hp
    · injection heq with h1 h2
      subst h1
      exact h

theorem get_discussion_ids_loop_le (maxD timeout t0 : Int) :
    ∀ (trace : List PollStep) (ids out : List String) (n : Nat),
      get_discussion_ids_loop maxD timeout t0 ids trace = (out, n) →
      (ids.length : Int) ≤ maxD → (out.length : Int) ≤ maxD := by
  intro trace
  induction trace with
  | nil =>
    intro ids out n heq h
    simp only [get_discussion_ids_loop] at heq
    injection heq with h1 h2
    subst h1
    exact h
  | cons st rest ih =>
    intro ids out n heq h
    simp only [get_discussion_ids_loop] at heq
    split at heq
    · rename_i hg
      have hp := get_discussion_ids_pass_le maxD st.resp ids
        (get_discussion_ids_pass maxD ids st.resp).1
        (get_discussion_ids_pass maxD ids st.resp).2 rfl hg
      split at heq
      · injection heq with h1 h2
        subst h1
        exact hp.1
      · split at heq
        · injection heq with h1 h2
          subst h1
          exact hp.1
        · rename_i hflag ht
          injection heq with h1 h2
          subst h1
          exact ih _ _ _ rfl (le_of_lt (hp.2 (by simpa using hflag)))
    · injection heq with h1 h2
      subst h1
      exact h

theorem get_recording_discussion_ids_pass_nodup (maxD : Int) :
    ∀ (ds : List Discussion) (ids out : List String) (flag : Bool),
      get_recording_discussion_ids_pass maxD ids ds = (out, flag) →
      ids.Nodup → out.Nodup := by
  intro ds
  induction ds with
  | nil =>
    intro ids out flag heq h
    simp only [get_recording_discussion_ids_pass] at heq
    injection heq with h1 h2
    subst h1
    exact h
  | cons d ds ih =>
    intro ids out flag heq h
    simp only [get_recording_discussion_ids_pass] at heq
    split at heq
    · by_cases hm : d.id ∈ ids
      · simp only [if_pos hm] at heq
        split at heq
        · injection heq with h1 hf
          subst h1
          exact h
        · exact ih ids out flag heq h
      · simp only [if_neg hm] at heq
        have h2 : (ids ++ [d.id]).Nodup := by simp [List.nodup_append, h, hm]
        split at heq
        · injection heq with h1 hf
          subst h1
          exact h2
        · exact ih _ out flag heq h2
    · exact ih ids out flag heq h

theorem get_recording_discussion_ids_pass_le (maxD : Int) :
    ∀ (ds : List Discussion) (ids out : List String) (flag : Bool),
      get_recording_discussion_ids_pass maxD ids ds = (out, flag) →
      (ids.length : Int) < maxD →
      (out.length : Int) ≤ maxD ∧ (flag = false → (out.length : Int) < maxD) := by
  intro ds
  induction ds with
  | nil =>
    intro ids out flag heq hlen
    simp only [get_recording_discussion_ids_pass] at heq
    injection heq with h1 h2
    subst h1
    subst h2
    exact ⟨by omega, fun _ => hlen⟩
  | cons d ds ih =>
    intro ids out flag heq hlen
    simp only [get_recording_discussion_ids_pass] at heq
    split at heq
    · by_cases hm : d.id ∈ ids
      · simp only [if_pos hm] at heq
        split at heq
        · injection heq with h1 hf
          subst h1
          subst hf
          exact ⟨by omega, fun hc => nomatch hc⟩
        · exact ih ids out flag heq hlen
      · simp only [if_neg hm] at heq
        split at heq
        · injection heq with h1 hf
          subst h1
          subst hf
          refine ⟨?_, fun hc => nomatch hc⟩
          simp only [List.length_append, List.length_singleton]
          omega
        · rename_i hr
          have hlen2 : ((ids ++ [d.id]).length : Int) < maxD := by
            simp only [List.length_append, List.length_singleton] at hr ⊢
            omega
          exact ih (ids ++ [d.id]) out flag heq hlen2
    · exact ih ids out flag heq hlen

theorem get_recording_discussion_ids_loop_nodup (maxD timeout t0 : Int) :
    ∀ (trace : List PollStep) (ids out : List String) (n : Nat),
      get_recording_discussion_ids_loop maxD timeout t0 ids trace = (out, n) →
      ids.Nodup → out.Nodup := by
  intro trace
  induction trace with
  | nil =>
    intro ids out n heq h
    simp only [get_recording_discussion_ids_loop] at heq
    injection heq with h1 h2
    subst h1
    exact h
  | cons st rest ih =>
    intro ids out n heq h
    simp only [get_recording_discussion_ids_loop] at heq
    split at heq
    · have hp : (get_recording_discussion_ids_pass maxD ids st.resp).1.Nodup :=
        get_recording_discussion_ids_pass_nodup maxD st.resp ids _ _ rfl h
      split at heq
      · injection heq with h1 h2
        subst h1
        exact hp
      · split at heq
        · injection heq with h1 h2
          subst h1
          exact hp
        · injection heq with h1 h2
          subst h1
          exact ih _ _ _ rfl hp
    · injection heq with h1 h2
      subst h1
      exact h

theorem get_recording_discussion_ids_loop_le (maxD timeout t0 : Int) :
    ∀ (trace : List PollStep) (ids out : List String) (n : Nat),
      get_recording_discussion_ids_loop maxD timeout t0 ids trace = (out, n) →
      (ids.length : Int) ≤ maxD → (out.length : Int) ≤ maxD := by
  intro trace
  induction trace with
  | nil =>
    intro ids out n heq h
    simp only [get_recording_discussion_ids_loop] at heq
    injection heq with h1 h2
    subst h1
    exact h
  | cons st rest ih =>
    intro ids out n heq h
    simp only [get_recording_discussion_ids_loop] at heq
    split at heq
    · rename_i hg
      have hp := get_recording_discussion_ids_pass_le maxD st.resp ids
        (get_recording_discussion_ids_pass maxD ids st.resp).1
        (get_recording_discussion_ids_pass maxD ids st.resp).2 rfl hg
      split at heq
      · injection heq with h1 h2
        subst h1
        exact hp.1
      · split at heq
        · injection heq with h1 h2
          subst h1
          exact hp.1
        · rename_i hflag ht
          injection heq with h1 h2
          subst h1
          exact ih _ _ _ rfl (le_of_lt (hp.2 (by simpa using hflag)))
    · injection heq with h1 h2
      subst h1
      exact h

/-- C5 (amended): both identifier-polling loops return pairwise-distinct
identifiers, and whenever `max_discussions` is non-negative the returned
list has length at most `max_discussions` (for a negative maximum the guard
fails at once and the empty list is returned, whose length 0 exceeds the
requested maximum). -/
theorem polling_ids_distinct_and_bounded (maxD timeout t0 : Int) (trace : List PollStep) :
    ((get_discussion_ids maxD timeout t0 trace).1.Nodup
      ∧ (0 ≤ maxD → ((get_discussion_ids maxD timeout t0 trace).1.length : Int) ≤ maxD))
  ∧ ((get_recording_discussion_ids maxD timeout t0 trace).1.Nodup
      ∧ (0 ≤ maxD →
          ((get_recording_discussion_ids maxD timeout t0 trace).1.length : Int) ≤ maxD)) := by
  refine ⟨⟨?_, ?_⟩, ?_, ?_⟩
  · exact get_discussion_ids_loop_nodup maxD timeout t0 trace [] _ _ rfl List.nodup_nil
  · intro h0
    exact get_discussion_ids_loop_le maxD timeout t0 trace [] _ _ rfl (by simpa using h0)
  · exact get_recording_discussion_ids_loop_nodup maxD timeout t0 trace [] _ _ rfl
      List.nodup_nil
  · intro h0
    exact get_recording_discussion_ids_loop_le maxD timeout t0 trace [] _ _ rfl
      (by simpa using h0)

/-- C5 (counterexample): with `max_discussions = -1` (an `int` the source
accepts), the loop returns the empty list, whose length 0 is not at most
the requested maximum. -/
theorem polling_ids_negative_max_cex :
    ¬ (((get_discussion_ids (-1) 30 0 []).1.length : Int) ≤ -1) := by decide

theorem get_discussion_ids_loop_check_le (maxD timeout t0 : Int) :
    ∀ (trace : List PollStep) (ids : List String) (i : Nat) (step : PollStep),
      trace.get? i = some step →
      i + 1 < (get_discussion_ids_loop maxD timeout t0 ids trace).2 →
      step.checkT - t0 ≤ timeout := by
  intro trace
  induction trace with
  | nil =>
    intro ids i step hget hn
    simp at hget
  | cons st rest ih =>
    intro ids i step hget hn
    simp only [get_discussion_ids_loop] at hn
    split at hn
    · split at hn
      · exact absurd (hn : i + 1 < 1) (by omega)
      · split at hn
        · exact absurd (hn : i + 1 < 1) (by omega)
        · rename_i ht
          cases i with
          | zero =>
            have hst : st = step := by simpa using hget
            subst hst
            omega
          | succ j =>
            have hg2 : rest.get? j = some step := by simpa using hget
            have hn2 : j + 1 + 1 <
                (get_discussion_ids_loop maxD timeout t0
                  (get_discussion_ids_pass maxD ids st.resp).1 rest).2 + 1 := hn
            exact ih (get_discussion_ids_pass maxD ids st.resp).1 j step hg2 (by omega)
    · exact absurd (hn : i + 1 < 0) (by omega)

theorem get_recording_discussion_ids_loop_check_le (maxD timeout t0 : Int) :
    ∀ (trace : List PollStep) (ids : List String) (i : Nat) (step : PollStep),
      trace.get? i = some step →
      i + 1 < (get_recording_discussion_ids_loop maxD timeout t0 ids trace).2 →
      step.checkT - t0 ≤ timeout := by
  intro trace
  induction trace with
  | nil =>
    intro ids i step hget hn
    simp at hget
  | cons st rest ih =>
    intro ids i step hget hn
    simp only [get_recording_discussion_ids_loop] at hn
    split at hn
    · split at hn
      · exact absurd (hn : i + 1 < 1) (by omega)
      · split at hn
        · exact absurd (hn : i + 1 < 1) (by omega)
        · rename_i ht
          cases i with
          | zero =>
            have hst : st = step := by simpa using hget
            subst hst
            omega
          | succ j =>
            have hg2 : rest.get? j = some step := by simpa using hget
            have hn2 : j + 1 + 1 <
                (get_recording_discussion_ids_loop maxD timeout t0
                  (get_recording_discussion_ids_pass maxD ids st.resp).1 rest).2 + 1 := hn
            exact ih (get_recording_discussion_ids_pass maxD ids st.resp).1 j step hg2
              (by omega)
    · exact absurd (hn : i + 1 < 0) (by omega)

/-- C8: no polling loop keeps listing once the wall clock has passed the
timeout: a further listing pass is made only when the timeout check after
the previous pass still read `elapsed <= timeout`.  Hence every consumed
pass except possibly the final one both starts and checks within the
deadline, so once the elapsed time exceeds the timeout the loop performs at
most one more listing pass before returning (for `get_all_discussion_ids`
there is never more than one pass at all). -/
theorem polling_timeout_one_extra_pass (maxD timeout t0 : Int) (trace : List PollStep)
    (i : Nat) (step : PollStep) (hstep : trace.get? i = some step) :
    (i + 1 < (get_discussion_ids maxD timeout t0 trace).2 →
        step.checkT - t0 ≤ timeout
          ∧ (step.startT ≤ step.checkT → step.startT - t0 ≤ timeout))
  ∧ (i + 1 < (get_recording_discussion_ids maxD timeout t0 trace).2 →
        step.checkT - t0 ≤ timeout
          ∧ (step.startT ≤ step.checkT → step.startT - t0 ≤ timeout))
  ∧ (i + 1 < (get_all_discussion_ids timeout t0 trace).2 →
        step.checkT - t0 ≤ timeout) := by
  refine ⟨?_, ?_, ?_⟩
  · intro hn
    have hc := get_discussion_ids_loop_check_le maxD timeout t0 trace [] i step hstep hn
    exact ⟨hc, fun hsc => by omega⟩
  · intro hn
    have hc := get_recording_discussion_ids_loop_check_le maxD timeout t0 trace [] i step
      hstep hn
    exact ⟨hc, fun hsc => by omega⟩
  · intro hn
    exfalso
    cases trace with
    | nil => simp at hstep
    | cons st rest =>
      have h1 := get_all_discussion_ids_one_listing timeout t0 st rest
      omega

theorem polling_timeout_one_extra_pass_witness :
    (0 + 1 < (get_discussion_ids 5 30 0 [⟨[], 0, 1⟩, ⟨[], 4, 5⟩]).2 →
        (1 : Int) - 0 ≤ 30 ∧ ((0 : Int) ≤ (1 : Int) → (0 : Int) - 0 ≤ 30))
  ∧ (0 + 1 < (get_recording_discussion_ids 5 30 0 [⟨[], 0, 1⟩, ⟨[], 4, 5⟩]).2 →
        (1 : Int) - 0 ≤ 30 ∧ ((0 : Int) ≤ (1 : Int) → (0 : Int) - 0 ≤ 30))
  ∧ (0 + 1 < (get_all_discussion_ids 30 0 [⟨[], 0, 1⟩, ⟨[], 4, 5⟩]).2 →
        (1 : Int) - 0 ≤ 30) :=
  polling_timeout_one_extra_pass 5 30 0 [⟨[], 0, 1⟩, ⟨[], 4, 5⟩] 0 ⟨[], 0, 1⟩ rfl

/-- C3: the list `get_all_discussion_ids` returns is sorted descending by the
recorded-at timestamp converted to the display timezone: across distinct keys
the order is strictly descending (formally: every later record's key is at
most every earlier one's, so equal keys may sit in either order, as the claim
allows for ties), and the returned list is a permutation of the records the
loop collected. -/
theorem get_all_discussion_ids_sorted (timeout t0 : Int) (trace : List PollStep) :
    List.Pairwise (fun a b : DInfo => b.recordedAtJST ≤ a.recordedAtJST)
        (get_all_discussion_ids timeout t0 trace).1
      ∧ (get_all_discussion_ids timeout t0 trace).1.Perm
          (get_all_discussion_ids_loop timeout t0 [] [] trace).1 := by
  constructor
  · have h := @List.sorted_mergeSort DInfo byRecordedDesc
      (by
        intro a b c hab hbc
        simp only [byRecordedDesc, decide_eq_true_eq] at hab hbc ⊢
        omega)
      (by
        intro a b
        simp only [byRecordedDesc, Bool.or_eq_true, decide_eq_true_eq]
        omega)
      (get_all_discussion_ids_loop timeout t0 [] [] trace).1
    exact h.imp (by
      intro a b hh
      simpa [byRecordedDesc] using hh)
  · exact List.mergeSort_perm _ _
